import Mathlib

/-
Verification of the VoC platform's asynchronous job-orchestration core.

This file gives a shallow embedding, in Lean, of the orchestration code of
the repository:

  * the create+poll protocol clients
    (backend/services/fetch_maps_reviews.py `_poll_for_results` and
     backend/services/discover_maps_locations.py `_poll_for_maps_results`),
  * the queue worker loop (backend/worker.py `main` / `process_message`),
  * the checkpointed batch classifier
    (backend/services/analyze_reviews.py `analyze_reviews`),
  * the bounded fan-out discovery merge
    (backend/services/discover_maps_locations.py `discover_maps_links`),
  * the six-month review filter
    (backend/services/fetch_maps_reviews.py `scrape_google_maps_reviews`),

and proves or refutes the specification's claims about them.  External
collaborators (HTTP transport, S3, SQS, OpenAI) are modelled as value
parameters (scripted responses, outcome values); control flow, state
updates and arithmetic are translated statement by statement from the
Python source.
-/

/-! ### External async task client (poll loop)

A provider response to one `task_get` poll call, as the Python code reads
the JSON body: the request may raise (caught by the `except` around the
body), the `tasks` array may be empty (`continue`), or there is a first
task carrying a `status_code` and a `result` array whose first entry may
carry an `items` array (`task.get("result") or []`, then
`task_result[0].get("items") or []`). -/
inductive PollResp (α : Type) where
  | transportErr : PollResp α
  | noTasks : PollResp α
  | task (status_code : Int) (result : List (Option (List α))) : PollResp α

/-- A response is terminal exactly when the loop returns on it:
status 20000 (success) or 40102 (no search results). -/
def PollResp.isTerminal {α : Type} : PollResp α → Bool
  | .task c _ => c == 20000 || c == 40102
  | _ => false

/-- Rational minimum written with an explicit comparison (Python `min`). -/
def qmin (a b : ℚ) : ℚ := if a ≤ b then a else b

/-- The shared poll loop body of `_poll_for_results` and
`_poll_for_maps_results`: up to `fuel` remaining attempts, each attempt
sleeps `wait` (recorded in `sleeps`), issues the poll call `script i`, and
then follows the Python branch structure: success returns the first result
entry's items, `tasks` empty or a transport error continues with the same
wait, 40601/40602 (queued/processing) and any unrecognized status continue
with the wait multiplied by 1.5 and capped at `cap`, 40102 returns empty.
Exhausted attempts return empty (the "timeout" path, which never raises).
The returned pair is (items, the wait slept before each poll call). -/
def poll_aux {α : Type} (script : Nat → PollResp α) (cap : ℚ) :
    Nat → Nat → ℚ → List ℚ → List α × List ℚ
  | 0, _, _, sleeps => ([], sleeps)
  | fuel + 1, i, wait, sleeps =>
    let sleeps := sleeps ++ [wait]
    match script i with
    | .transportErr => poll_aux script cap fuel (i + 1) wait sleeps
    | .noTasks => poll_aux script cap fuel (i + 1) wait sleeps
    | .task code result =>
      if code == 20000 then
        match result with
        | [] => ([], sleeps)
        | r0 :: _ => (r0.getD [], sleeps)
      else if code == 40601 || code == 40602 then
        poll_aux script cap fuel (i + 1) (qmin (wait * (3 / 2)) cap) sleeps
      else if code == 40102 then
        ([], sleeps)
      else
        poll_aux script cap fuel (i + 1) (qmin (wait * (3 / 2)) cap) sleeps

/-- `_poll_for_results` (fetch_maps_reviews.py): max_attempts 15,
initial_wait 2.0 seconds, backoff capped at 10.0 seconds. -/
def poll_for_results {α : Type} (script : Nat → PollResp α) : List α × List ℚ :=
  poll_aux script 10 15 0 2 []

/-- `_poll_for_maps_results` (discover_maps_locations.py): max_attempts
DEFAULT_POLL_ATTEMPTS = 5, initial_wait 1.0 second, backoff capped at
5.0 seconds. -/
def poll_for_maps_results {α : Type} (script : Nat → PollResp α) : List α × List ℚ :=
  poll_aux script 5 5 0 1 []

/-- The scripted provider of the backoff-shape property: two
processing responses (status 40601) followed by a success (status 20000)
whose first result entry carries `payload`. -/
def script_pps {α : Type} (payload : List α) : Nat → PollResp α :=
  fun i => if i < 2 then .task 40601 [] else .task 20000 [some payload]

/-! ### Task queue worker loop -/

/-- The worker process environment read by `process_message`
(worker.py): whether GEMINI_API_KEY and OPENAI_API_KEY are set. -/
structure WorkerEnv where
  geminiKey : Bool
  openaiKey : Bool

/-- `process_message` (worker.py).  The message body's `task_type` field
is `Option String` (`message_body.get("task_type")`).  The three service
calls are modelled by their outcomes: `Except.error` is an uncaught Python
exception, `Except.ok` a normal return.
  * "scraping": `run_scraper_service` is called with no surrounding
    try/except, so its exception propagates out of `process_message`.
  * "analyze_website": a missing Gemini key returns early; otherwise the
    whole body sits in a `try/except` that logs and swallows every
    exception, so the branch always returns normally.
  * "analysis": a missing OpenAI key returns early; otherwise
    `analyze_reviews` is called with no surrounding try/except; a result
    dict that merely carries an "error" key is only logged (`Bool` below),
    and the branch returns normally.
  * any other task_type: a warning is logged and the function returns. -/
def process_message (env : WorkerEnv) (scrape : Except String Unit)
    (website : Except String Unit) (analysis : Except String Bool)
    (taskType : Option String) : Except String Unit :=
  if taskType = some ("scraping") then
    match scrape with
    | .ok _ => .ok ()
    | .error e => .error e
  else if taskType = some ("analyze_website") then
    if env.geminiKey = false then .ok ()
    else
      match website with
      | .ok _ => .ok ()
      | .error _ => .ok ()
  else if taskType = some ("analysis") then
    if env.openaiKey = false then .ok ()
    else
      match analysis with
      | .ok _ => .ok ()
      | .error e => .error e
  else .ok ()

/-- One iteration of the worker receive loop (worker.py `main`, the body
of `for message in messages`): the message body is JSON-decoded (`none`
models a `json.JSONDecodeError`, which is logged and the message is NOT
deleted), `process_message` is run, and `delete_message` is called only
when it returned without an exception; the surrounding
`except Exception` leaves the message undeleted on a handler error.
Returns whether the message was deleted (acknowledged). -/
def worker_step (decoded : Option (Option String))
    (proc : Option String → Except String Unit) : Bool :=
  match decoded with
  | none => false
  | some body =>
    match proc body with
    | .ok _ => true
    | .error _ => false

/-! ### Google Maps reviews: parsing and the six-month filter -/

/-- A raw DataForSEO review item as `_parse_reviews`
(fetch_maps_reviews.py) reads it.  Timestamps are modelled as integer
time points; `none` stands for a missing or unparseable timestamp, which
`_parse_timestamp` replaces by the current time. -/
structure RawReview where
  rtype : String
  review_text : Option String
  original_review_text : Option String
  rating : Option ℚ
  timestamp : Option Int
  profile_name : Option String

/-- A parsed review row of the returned DataFrame. -/
structure Review where
  text : String
  rating : ℚ
  date : Int
  source_user : String
  platform : String

/-- `_parse_timestamp`: a missing timestamp becomes the current time. -/
def parse_timestamp (now : Int) : Option Int → Int
  | none => now
  | some t => t

/-- `_parse_reviews`: keep items of type "google_reviews_search"; the text
is `review_text or original_review_text or ""` (Python `or` skips empty
strings), the rating defaults to 0, the date comes from
`_parse_timestamp`. -/
def parse_reviews (now : Int) (items : List RawReview) : List Review :=
  items.filterMap fun it =>
    if it.rtype = "google_reviews_search" then
      some
        { text :=
            if it.review_text.getD ("") ≠ "" then it.review_text.getD ("")
            else it.original_review_text.getD ("")
          rating := it.rating.getD 0
          date := parse_timestamp now it.timestamp
          source_user := it.profile_name.getD ("Anonymous")
          platform := "Google Maps" }
    else none

/-- The tail of `scrape_google_maps_reviews` (fetch_maps_reviews.py) from
the point where polling returned `items`: empty items return an empty
DataFrame; otherwise the items are parsed and rows with
`date < six_months_ago` are dropped (`df = df[df['date'] >= six_months_ago]`).
`cutoff` is the computed `six_months_ago` time point; `maxReviews` is the
`max_reviews` argument, which only influences the requested task depth and
never the filter. -/
def scrape_google_maps_reviews (now cutoff : Int) (maxReviews : Nat)
    (items : List RawReview) : List Review :=
  if items.isEmpty then []
  else
    let df := parse_reviews now items
    if df.isEmpty then df
    else df.filter fun r => decide (cutoff ≤ r.date)

/-! ### Poll-loop lemmas -/

/-- If no poll response in the attempt window is terminal, the loop runs
out of attempts and returns the empty item list. -/
theorem poll_aux_no_terminal {α : Type} (script : Nat → PollResp α) (cap : ℚ)
    (fuel : Nat) :
    ∀ (i : Nat) (wait : ℚ) (sleeps : List ℚ),
      (∀ j, j < i + fuel → i ≤ j → (script j).isTerminal = false) →
      (poll_aux script cap fuel i wait sleeps).1 = [] := by
  induction fuel with
  | zero => intro i wait sleeps _; simp [poll_aux]
  | succ n ih =>
    intro i wait sleeps h
    have hi : (script i).isTerminal = false := h i (by omega) (by omega)
    cases hs : script i with
    | transportErr =>
      simpa [poll_aux, hs] using ih (i + 1) wait _ (fun j h1 h2 => h j (by omega) (by omega))
    | noTasks =>
      simpa [poll_aux, hs] using ih (i + 1) wait _ (fun j h1 h2 => h j (by omega) (by omega))
    | task code result =>
      simp [PollResp.isTerminal, hs] at hi
      simp [poll_aux, hs, hi.1, hi.2]
      exact ih (i + 1) _ _ (fun j h1 h2 => h j (by omega) (by omega))

/-- Claim C2: a poll session that observes no terminal status (success or
no-results) within the configured maximum attempts — including one whose
every attempt raises a transport error, which the loop catches — returns
an empty result list.  Both pollers are total functions of the response
script: the `try/except` around each attempt body is the whole of the
loop's failure handling, so no exception escapes
(`_poll_for_results`, fetch_maps_reviews.py lines 95-146, and
`_poll_for_maps_results`, discover_maps_locations.py lines 131-183). -/
theorem poll_timeout_returns_empty {α : Type}
    (s1 s2 : Nat → PollResp α)
    (h1 : ∀ j, j < 15 → (s1 j).isTerminal = false)
    (h2 : ∀ j, j < 5 → (s2 j).isTerminal = false) :
    (poll_for_results s1).1 = [] ∧ (poll_for_maps_results s2).1 = [] := by
  constructor
  · exact poll_aux_no_terminal s1 10 15 0 2 [] (fun j hj _ => h1 j (by omega))
  · exact poll_aux_no_terminal s2 5 5 0 1 [] (fun j hj _ => h2 j (by omega))

/-- Witness for C2 at the concrete script whose every attempt is a
transport error. -/
theorem poll_timeout_returns_empty_witness :
    (poll_for_results (fun _ => (PollResp.transportErr : PollResp Nat))).1 = []
    ∧ (poll_for_maps_results (fun _ => (PollResp.transportErr : PollResp Nat))).1 = [] :=
  poll_timeout_returns_empty (fun _ => PollResp.transportErr)
    (fun _ => PollResp.transportErr)
    (fun _ _ => rfl) (fun _ _ => rfl)

/-- Claim C7: on the scripted status sequence
[processing, processing, succeeded], each poller issues exactly 3 poll
calls; the waits slept before the calls are [2, 3, 9/2] seconds
(reviews poller: initial 2.0) and [1, 3/2, 9/4] seconds (maps poller:
initial 1.0); successive waits follow the capped growth law
w' = min(w * 1.5, cap); the wait sequence is non-decreasing and bounded
by the configured cap (10.0 and 5.0 seconds); and the success payload's
items are returned. -/
theorem poll_backoff_shape {α : Type} (payload : List α) :
    poll_for_results (script_pps payload) = (payload, [2, 3, 9 / 2])
    ∧ poll_for_maps_results (script_pps payload) = (payload, [1, 3 / 2, 9 / 4])
    ∧ (poll_for_results (script_pps payload)).2.length = 3
    ∧ (poll_for_maps_results (script_pps payload)).2.length = 3
    ∧ List.Chain' (fun a b => b = qmin (a * (3 / 2)) 10) (poll_for_results (script_pps payload)).2
    ∧ List.Chain' (fun a b => b = qmin (a * (3 / 2)) 5) (poll_for_maps_results (script_pps payload)).2
    ∧ List.Pairwise (fun a b => a ≤ b) (poll_for_results (script_pps payload)).2
    ∧ List.Pairwise (fun a b => a ≤ b) (poll_for_maps_results (script_pps payload)).2
    ∧ (∀ w ∈ (poll_for_results (script_pps payload)).2, w ≤ 10)
    ∧ (∀ w ∈ (poll_for_maps_results (script_pps payload)).2, w ≤ 5) := by
  have e1 : poll_for_results (script_pps payload) = (payload, [2, 3, 9 / 2]) := by
    norm_num [poll_for_results, poll_aux, script_pps, qmin]
  have e2 : poll_for_maps_results (script_pps payload) = (payload, [1, 3 / 2, 9 / 4]) := by
    norm_num [poll_for_maps_results, poll_aux, script_pps, qmin]
  refine ⟨e1, e2, ?_, ?_, ?_, ?_, ?_, ?_, ?_, ?_⟩ <;>
    first
      | (rw [e1]; norm_num [qmin])
      | (rw [e2]; norm_num [qmin])

/-! ### Worker-loop theorems -/

/-- Claim C3: for a queue message whose body decodes as JSON, the worker
iteration deletes (acknowledges) the message exactly when
`process_message` returns without an uncaught exception; in particular a
message whose handling raises is never deleted, and is left to the
queue's visibility-timeout redelivery (worker.py lines 111-136). -/
theorem worker_ack_iff_handler_ok (env : WorkerEnv)
    (scrape website : Except String Unit) (analysis : Except String Bool)
    (t : Option String) :
    (worker_step (some t) (process_message env scrape website analysis) = true
      ↔ process_message env scrape website analysis t = .ok ())
    ∧ (∀ e, process_message env scrape website analysis t = .error e →
        worker_step (some t) (process_message env scrape website analysis) = false) := by
  constructor
  · cases h : process_message env scrape website analysis t with
    | ok u => cases u; simp [worker_step, h]
    | error e => simp [worker_step, h]
  · intro e h
    simp [worker_step, h]

/-- Witness for C3: a scraping message whose handler raises is not
deleted (and the equivalence holds there). -/
theorem worker_ack_iff_handler_ok_witness :
    ((worker_step (some (some ("scraping")))
        (process_message ⟨true, true⟩ (.error ("boom")) (.ok ()) (.ok false)) = true
      ↔ process_message ⟨true, true⟩ (.error ("boom")) (.ok ()) (.ok false)
          (some ("scraping")) = .ok ())
    ∧ (∀ e, process_message ⟨true, true⟩ (.error ("boom")) (.ok ()) (.ok false)
          (some ("scraping")) = .error e →
        worker_step (some (some ("scraping")))
          (process_message ⟨true, true⟩ (.error ("boom")) (.ok ()) (.ok false)) = false)) :=
  worker_ack_iff_handler_ok ⟨true, true⟩ (.error ("boom")) (.ok ()) (.ok false)
    (some ("scraping"))

/-- Claim C9: a decoded message whose task_type is none of "scraping",
"analyze_website", "analysis" makes `process_message` log a warning and
return normally, so the worker loop deletes the message: an unknown-kind
message is acknowledged and permanently dropped
(worker.py lines 100-101 and 119-128). -/
theorem worker_unknown_kind_acked (env : WorkerEnv)
    (scrape website : Except String Unit) (analysis : Except String Bool)
    (t : Option String)
    (h1 : t ≠ some ("scraping")) (h2 : t ≠ some ("analyze_website"))
    (h3 : t ≠ some ("analysis")) :
    process_message env scrape website analysis t = .ok ()
    ∧ worker_step (some t) (process_message env scrape website analysis) = true := by
  have hp : process_message env scrape website analysis t = .ok () := by
    simp [process_message, h1, h2, h3]
  exact ⟨hp, by simp [worker_step, hp]⟩

/-- Witness for C9 at the concrete unknown task type "reindex" with an
erroring scrape handler standing by. -/
theorem worker_unknown_kind_acked_witness :
    process_message ⟨true, true⟩ (.error ("boom")) (.ok ()) (.ok false)
        (some ("reindex")) = .ok ()
    ∧ worker_step (some (some ("reindex")))
        (process_message ⟨true, true⟩ (.error ("boom")) (.ok ()) (.ok false)) = true :=
  worker_unknown_kind_acked ⟨true, true⟩ (.error ("boom")) (.ok ()) (.ok false)
    (some ("reindex")) (by decide) (by decide) (by decide)

/-! ### Six-month filter theorem -/

/-- Claim C10: every row of the DataFrame returned by
`scrape_google_maps_reviews` has a date on or after the six-months-ago
cutoff: after polling, reviews older than six months are dropped by
`df = df[df['date'] >= six_months_ago]` before the result is returned,
whatever the `max_reviews` argument (fetch_maps_reviews.py
lines 263-281). -/
theorem scrape_reviews_six_month_filter (now cutoff : Int) (maxReviews : Nat)
    (items : List RawReview) :
    ((scrape_google_maps_reviews now cutoff maxReviews items).all
      fun r => decide (cutoff ≤ r.date)) = true := by
  unfold scrape_google_maps_reviews
  split
  · rfl
  · simp only []
    split
    · simp_all
    · simp only [List.all_eq_true]
      intro r hr
      exact (List.mem_filter.mp hr).2

/-! ### Checkpointed batch classifier (analyze_reviews.py)

The per-item classification loop of `analyze_reviews`.  The OpenAI call
for row `idx` is modelled by `script idx : Option ClassResult`: `none`
stands for a raised exception or unparseable (malformed) JSON — both land
in the same `except` branch of the source — and makes the loop append the
neutral default result for that index. -/

structure TopicEntry where
  dimension : String
  sentiment : String
  mentioned : Bool
deriving DecidableEq

structure ClassResult where
  sentiment : String
  emotion : String
  confidence : ℚ
  topics : List TopicEntry
deriving DecidableEq

/-- The defined neutral default substituted when a classification call
fails (analyze_reviews.py lines 299-310). -/
def neutralResult : ClassResult :=
  { sentiment := "Neutral", emotion := "Indifferent", confidence := 0, topics := [] }

/-- One classification call inside its try/except: the scripted outcome,
or the neutral default on failure. -/
def classify_once (script : Nat → Option ClassResult) (idx : Nat) : ClassResult :=
  (script idx).getD neutralResult

/-- The loop state: the in-memory `analyzed_results` list of
{index, result} pairs, the checkpoint store entry for this job
(`none` = absent), and the number of classification calls made. -/
structure BatchState where
  results : List (Nat × ClassResult)
  ckpt : Option (List (Nat × ClassResult))
  calls : Nat
deriving DecidableEq

/-- The checkpoint write at the top of each iteration
(`if job_id and len(analyzed_results) > 0 and len(analyzed_results) % 50 == 0`:
analyze_reviews.py lines 219-221). -/
def ckpt_save_step (jid : Bool) (s : BatchState) : BatchState :=
  if jid = true ∧ 0 < s.results.length ∧ s.results.length % 50 = 0
  then { s with ckpt := some s.results } else s

/-- The per-item loop (`for idx, row in df_sample.iterrows()`): skip
already-processed indices, save the periodic checkpoint, invoke the
classification call, append `{index, result}`. -/
def batch_loop (script : Nat → Option ClassResult) (jid : Bool) (skip : List Nat) :
    List Nat → BatchState → BatchState
  | [], s => s
  | idx :: rest, s =>
    if skip.contains idx then batch_loop script jid skip rest s
    else
      let s := ckpt_save_step jid s
      batch_loop script jid skip rest
        { s with results := s.results ++ [(idx, classify_once script idx)]
                 calls := s.calls + 1 }

/-- The same loop under a crash budget: the process dies (state is simply
abandoned, no finalization runs) when `fuel` classification calls have
been made and another unskipped item comes up. -/
def batch_loop_crash (script : Nat → Option ClassResult) (jid : Bool) (skip : List Nat) :
    List Nat → Nat → BatchState → BatchState
  | [], _, s => s
  | idx :: rest, fuel, s =>
    if skip.contains idx then batch_loop_crash script jid skip rest fuel s
    else
      match fuel with
      | 0 => s
      | fuel + 1 =>
        let s := ckpt_save_step jid s
        batch_loop_crash script jid skip rest fuel
          { s with results := s.results ++ [(idx, classify_once script idx)]
                   calls := s.calls + 1 }

/-- A run of `analyze_reviews` (with a job id) that crashes after `fuel`
classification calls: load the checkpoint (`load_checkpoint` returns []
when the store entry is absent), build the skip set of checkpointed
indices, loop until the crash.  The returned state's `ckpt` is what the
checkpoint store holds at the moment of the crash. -/
def analyze_reviews_crash (script : Nat → Option ClassResult) (n : Nat)
    (store : Option (List (Nat × ClassResult))) (fuel : Nat) : BatchState :=
  let loaded := store.getD []
  let skip := loaded.map fun e => e.1
  batch_loop_crash script true skip (List.range n) fuel
    { results := loaded, ckpt := store, calls := 0 }

/-- The result merge back into the DataFrame (analyze_reviews.py lines
316-344): each {index, result} entry sets row `index` of the n-row frame
(`if idx in df_sample.index`: an out-of-range set is a no-op); a row never
touched keeps null columns (`none`). -/
def merge_results (n : Nat) (entries : List (Nat × ClassResult)) :
    List (Option ClassResult) :=
  entries.foldl (fun acc e => acc.set e.1 (some e.2)) (List.replicate n none)

/-- The observable outcome of a completed `analyze_reviews` run. -/
structure AnalyzeOutcome where
  state : BatchState
  merged : List (Option ClassResult)
  store : Option (List (Nat × ClassResult))

/-- A full (crash-free) run of `analyze_reviews` with a job id: load the
checkpoint, loop over all rows, merge the results by index, and on
completion delete the checkpoint store entry (analyze_reviews.py lines
452-457), so the final `store` is `none`. -/
def analyze_reviews (script : Nat → Option ClassResult) (n : Nat)
    (store : Option (List (Nat × ClassResult))) : AnalyzeOutcome :=
  let loaded := store.getD []
  let skip := loaded.map fun e => e.1
  let s := batch_loop script true skip (List.range n)
    { results := loaded, ckpt := store, calls := 0 }
  { state := s, merged := merge_results n s.results, store := none }

/-! ### Batch-loop lemmas -/

theorem ckpt_save_step_results (jid : Bool) (s : BatchState) :
    (ckpt_save_step jid s).results = s.results := by
  unfold ckpt_save_step; split <;> rfl

theorem ckpt_save_step_calls (jid : Bool) (s : BatchState) :
    (ckpt_save_step jid s).calls = s.calls := by
  unfold ckpt_save_step; split <;> rfl

theorem ckpt_save_step_skip (jid : Bool) (s : BatchState)
    (h : ¬(0 < s.results.length ∧ s.results.length % 50 = 0)) :
    ckpt_save_step jid s = s := by
  unfold ckpt_save_step
  rw [if_neg]
  tauto

theorem batch_loop_append (script : Nat → Option ClassResult) (jid : Bool)
    (skip : List Nat) (r1 r2 : List Nat) :
    ∀ s : BatchState, batch_loop script jid skip (r1 ++ r2) s
      = batch_loop script jid skip r2 (batch_loop script jid skip r1 s) := by
  induction r1 with
  | nil => intro s; rfl
  | cons idx rest ih =>
    intro s
    by_cases hc : skip.contains idx
    · simp only [List.cons_append, batch_loop, hc, if_true]
      exact ih _
    · simp only [List.cons_append, batch_loop, hc, Bool.false_eq_true, if_false]
      exact ih _

theorem batch_loop_skip_all (script : Nat → Option ClassResult) (jid : Bool)
    (skip : List Nat) (rows : List Nat) :
    ∀ s : BatchState, (∀ i ∈ rows, skip.contains i = true) →
      batch_loop script jid skip rows s = s := by
  induction rows with
  | nil => intro s _; rfl
  | cons idx rest ih =>
    intro s h
    have hc : skip.contains idx = true := h idx (List.mem_cons_self idx rest)
    simp only [batch_loop, hc, if_true]
    exact ih s fun i hi => h i (List.mem_cons_of_mem idx hi)

theorem batch_loop_unskipped (script : Nat → Option ClassResult) (jid : Bool)
    (skip : List Nat) (rows : List Nat) :
    ∀ s : BatchState, (∀ i ∈ rows, skip.contains i = false) →
      (batch_loop script jid skip rows s).results
          = s.results ++ rows.map (fun i => (i, classify_once script i))
      ∧ (batch_loop script jid skip rows s).calls = s.calls + rows.length := by
  induction rows with
  | nil => intro s _; simp [batch_loop]
  | cons idx rest ih =>
    intro s h
    have hc : skip.contains idx = false := h idx (List.mem_cons_self idx rest)
    have hrest : ∀ i ∈ rest, skip.contains i = false :=
      fun i hi => h i (List.mem_cons_of_mem idx hi)
    simp only [batch_loop, hc, Bool.false_eq_true, if_false]
    constructor
    · rw [(ih _ hrest).1]
      simp [ckpt_save_step_results, List.append_assoc]
    · rw [(ih _ hrest).2]
      simp only [ckpt_save_step_calls, List.length_cons]
      omega

theorem batch_loop_no_save (script : Nat → Option ClassResult) (jid : Bool)
    (skip : List Nat) (rows : List Nat) :
    ∀ s : BatchState, (∀ i ∈ rows, skip.contains i = false) →
      (∀ j, j < rows.length →
        ¬(0 < s.results.length + j ∧ (s.results.length + j) % 50 = 0)) →
      (batch_loop script jid skip rows s).ckpt = s.ckpt := by
  induction rows with
  | nil => intro s _ _; rfl
  | cons idx rest ih =>
    intro s h hns
    have hc : skip.contains idx = false := h idx (List.mem_cons_self idx rest)
    have h0 : ¬(0 < s.results.length ∧ s.results.length % 50 = 0) := by
      have := hns 0 (by simp)
      simpa using this
    simp only [batch_loop, hc, Bool.false_eq_true, if_false, ckpt_save_step_skip jid s h0]
    have hlen :
        (s.results ++ [(idx, classify_once script idx)]).length = s.results.length + 1 := by
      simp
    rw [ih _ (fun i hi => h i (List.mem_cons_of_mem idx hi))]
    intro j hj
    have := hns (j + 1) (by simpa using Nat.succ_lt_succ hj)
    simp only [hlen]
    intro hcontra
    exact this (by omega)

theorem batch_loop_crash_eq_take (script : Nat → Option ClassResult) (jid : Bool)
    (skip : List Nat) (rows : List Nat) :
    ∀ (fuel : Nat) (s : BatchState), (∀ i ∈ rows, skip.contains i = false) →
      batch_loop_crash script jid skip rows fuel s
        = batch_loop script jid skip (rows.take fuel) s := by
  induction rows with
  | nil => intro fuel s _; simp [batch_loop_crash, batch_loop]
  | cons idx rest ih =>
    intro fuel s h
    have hc : skip.contains idx = false := h idx (List.mem_cons_self idx rest)
    have hrest : ∀ i ∈ rest, skip.contains i = false :=
      fun i hi => h i (List.mem_cons_of_mem idx hi)
    cases fuel with
    | zero =>
      simp only [batch_loop_crash, hc, Bool.false_eq_true, if_false, List.take_zero,
        batch_loop]
    | succ f =>
      simp only [batch_loop_crash, batch_loop, hc, Bool.false_eq_true, if_false,
        List.take_succ_cons]
      exact ih f _ hrest

/-! ### Result-merge lemmas -/

theorem merge_foldl_length (l : List (Nat × ClassResult)) :
    ∀ acc : List (Option ClassResult),
      (l.foldl (fun a e => a.set e.1 (some e.2)) acc).length = acc.length := by
  induction l with
  | nil => intro acc; rfl
  | cons e rest ih =>
    intro acc
    rw [List.foldl_cons, ih]
    simp

theorem merge_results_length (n : Nat) (entries : List (Nat × ClassResult)) :
    (merge_results n entries).length = n := by
  unfold merge_results
  rw [merge_foldl_length]
  simp

theorem set_keeps_some (acc : List (Option ClassResult)) (j : Nat) (v : ClassResult)
    (i : Nat) (h : ∃ w, acc[i]? = some (some w)) :
    ∃ w, (acc.set j (some v))[i]? = some (some w) := by
  by_cases hij : j = i
  · subst hij
    obtain ⟨w, hw⟩ := h
    have hlen : j < acc.length := by
      by_contra hge
      push_neg at hge
      rw [List.getElem?_eq_none hge] at hw
      exact Option.noConfusion hw
    exact ⟨v, by simp [List.getElem?_set_self, hlen]⟩
  · rw [List.getElem?_set_ne hij]
    exact h

theorem merge_foldl_covers (l : List (Nat × ClassResult)) :
    ∀ (acc : List (Option ClassResult)) (i : Nat),
      ((∃ e ∈ l, e.1 = i ∧ i < acc.length) ∨ (∃ w, acc[i]? = some (some w))) →
      ∃ w, (l.foldl (fun a e => a.set e.1 (some e.2)) acc)[i]? = some (some w) := by
  induction l with
  | nil =>
    intro acc i h
    rcases h with ⟨e, he, _, _⟩ | h
    · exact absurd he (List.not_mem_nil e)
    · simpa using h
  | cons e rest ih =>
    intro acc i h
    rw [List.foldl_cons]
    rcases h with ⟨e', he', hfst, hlen⟩ | ⟨w, hw⟩
    · rcases List.mem_cons.mp he' with rfl | hmem
      · refine ih _ i (Or.inr ⟨e'.2, ?_⟩)
        rw [hfst]
        simp [List.getElem?_set_self, hlen]
      · refine ih _ i (Or.inl ⟨e', hmem, hfst, ?_⟩)
        simpa using hlen
    · exact ih _ i (Or.inr (set_keeps_some acc e.1 e.2 i ⟨w, hw⟩))

theorem merge_results_all_some (n : Nat) (entries : List (Nat × ClassResult))
    (h : ∀ i, i < n → ∃ e ∈ entries, e.1 = i) :
    (merge_results n entries).all Option.isSome = true := by
  rw [List.all_eq_true]
  intro x hx
  obtain ⟨i, hi⟩ := List.mem_iff_getElem?.mp hx
  have hn : i < n := by
    by_contra hge
    push_neg at hge
    rw [List.getElem?_eq_none (by rwa [merge_results_length])] at hi
    exact Option.noConfusion hi
  obtain ⟨e, he, hfst⟩ := h i hn
  have hcov : ∃ w, (merge_results n entries)[i]? = some (some w) := by
    unfold merge_results
    exact merge_foldl_covers entries _ i
      (Or.inl ⟨e, he, hfst, by simpa using hn⟩)
  obtain ⟨w, hw⟩ := hcov
  rw [hi] at hw
  injection hw with hxw
  rw [hxw]
  rfl

/-! ### Checkpoint/resume: helper facts -/

theorem contains_range_true {m i : Nat} (h : i < m) :
    (List.range m).contains i = true :=
  List.elem_iff.mpr (List.mem_range.mpr h)

theorem contains_range_false {m i : Nat} (h : m ≤ i) :
    (List.range m).contains i = false := by
  simp [List.mem_range]
  omega

theorem batch_loop_save_single (script : Nat → Option ClassResult) (idx : Nat)
    (s : BatchState) (h : 0 < s.results.length ∧ s.results.length % 50 = 0) :
    (batch_loop script true [] [idx] s).ckpt = some s.results := by
  show (ckpt_save_step true s).ckpt = some s.results
  unfold ckpt_save_step
  rw [if_pos ⟨rfl, h⟩]

/-- Claim C1: checkpoint/resume correctness of the batch classifier at
N=150 rows, checkpoint interval 50, for any classification outcomes.  A
first run with a job id that crashes after processing item 75 leaves the
checkpoint store holding exactly the 50 entries {index i, result} for
i = 0..49 (saved at the top of iteration 51, when len % 50 == 0); a
second run with the same job id makes exactly 100 classification calls
(the 50 checkpointed indices are skipped); its merged output has 150
rows, every one carrying a non-null result (the merge writes
`result.get(...)` defaults, never null, for each {index, result} entry,
and the two runs' entries cover all 150 indices); and the checkpoint
store entry is deleted after completion
(analyze_reviews.py lines 185-221, 281-310, 313-344, 452-457). -/
theorem analyze_checkpoint_resume (script : Nat → Option ClassResult) :
    (analyze_reviews_crash script 150 none 75).ckpt
        = some ((List.range 50).map fun i => (i, classify_once script i))
    ∧ ((analyze_reviews_crash script 150 none 75).ckpt.getD []).length = 50
    ∧ (analyze_reviews script 150 (analyze_reviews_crash script 150 none 75).ckpt).state.calls
        = 100
    ∧ ((analyze_reviews script 150
          (analyze_reviews_crash script 150 none 75).ckpt).merged.all Option.isSome) = true
    ∧ (analyze_reviews script 150
          (analyze_reviews_crash script 150 none 75).ckpt).merged.length = 150
    ∧ (analyze_reviews script 150 (analyze_reviews_crash script 150 none 75).ckpt).store
        = none := by
  have hnil150 : ∀ i ∈ List.range 150, ([] : List Nat).contains i = false := fun i _ => rfl
  have hnil50 : ∀ i ∈ List.range 50, ([] : List Nat).contains i = false := fun i _ => rfl
  have htake : (List.range 150).take 75 = List.range 75 := by
    simp [List.take_range]
  -- run 1: the crash run reduces to a plain loop over the first 75 rows
  have hcrash : analyze_reviews_crash script 150 none 75
      = batch_loop script true [] (List.range 75)
          { results := [], ckpt := none, calls := 0 } := by
    unfold analyze_reviews_crash
    simp only [Option.getD_none, List.map_nil]
    rw [batch_loop_crash_eq_take script true [] (List.range 150) 75
        { results := [], ckpt := none, calls := 0 } hnil150, htake]
  have hr75 : List.range 75 = (List.range 50 ++ [50]) ++ (List.range 24).map (51 + ·) := by
    have h1 : List.range 75 = List.range 51 ++ (List.range 24).map (51 + ·) := by
      simpa using List.range_add 51 24
    have h2 : List.range 51 = List.range 50 ++ [50] := List.range_succ 50
    rw [h1, h2]
  -- the first 50 iterations: results grow to the 50 entries, no save fires
  have hs50r : (batch_loop script true [] (List.range 50)
        { results := [], ckpt := none, calls := 0 }).results
      = (List.range 50).map fun i => (i, classify_once script i) := by
    rw [(batch_loop_unskipped script true [] (List.range 50)
        { results := [], ckpt := none, calls := 0 } hnil50).1]
    simp
  -- iteration 51 (idx = 50): len = 50, the checkpoint is saved
  have hstep : (batch_loop script true [] [50] (batch_loop script true [] (List.range 50)
        { results := [], ckpt := none, calls := 0 })).ckpt
      = some ((List.range 50).map fun i => (i, classify_once script i)) := by
    rw [batch_loop_save_single script 50 _
        ⟨by rw [hs50r]; simp, by rw [hs50r]; simp⟩, hs50r]
  -- iterations 52..75 (idx = 51..74): len = 51..74, no further save
  have h51len : (batch_loop script true [] [50] (batch_loop script true [] (List.range 50)
        { results := [], ckpt := none, calls := 0 })).results.length = 51 := by
    rw [(batch_loop_unskipped script true [] [50] _ (fun i _ => rfl)).1]
    rw [List.length_append, hs50r]
    simp
  have hckpt : (analyze_reviews_crash script 150 none 75).ckpt
      = some ((List.range 50).map fun i => (i, classify_once script i)) := by
    rw [hcrash, hr75, batch_loop_append, batch_loop_append]
    rw [batch_loop_no_save script true [] ((List.range 24).map (51 + ·)) _
        (fun i _ => rfl)
        (by
          intro j hj
          rw [h51len]
          simp at hj
          omega)]
    exact hstep
  -- run 2: the resumed run
  have hskipeq : (((List.range 50).map fun i => (i, classify_once script i)).map
        fun e => e.1) = List.range 50 := by
    rw [List.map_map]
    exact List.map_id _
  have h150split : List.range 150 = List.range 50 ++ (List.range 100).map (50 + ·) := by
    simpa using List.range_add 50 100
  have hskipall : ∀ i ∈ List.range 50, (List.range 50).contains i = true :=
    fun i hi => contains_range_true (List.mem_range.mp hi)
  have hnotin : ∀ i ∈ (List.range 100).map (50 + ·), (List.range 50).contains i = false := by
    intro i hi
    obtain ⟨j, hj, rfl⟩ := List.mem_map.mp hi
    exact contains_range_false (by omega)
  have hstate : (analyze_reviews script 150
        (some ((List.range 50).map fun i => (i, classify_once script i)))).state
      = batch_loop script true (List.range 50) (List.range 150)
          { results := (List.range 50).map fun i => (i, classify_once script i)
            ckpt := some ((List.range 50).map fun i => (i, classify_once script i))
            calls := 0 } := by
    unfold analyze_reviews
    simp only [Option.getD_some]
    rw [hskipeq]
  have hmerged : (analyze_reviews script 150
        (some ((List.range 50).map fun i => (i, classify_once script i)))).merged
      = merge_results 150 (batch_loop script true (List.range 50) (List.range 150)
          { results := (List.range 50).map fun i => (i, classify_once script i)
            ckpt := some ((List.range 50).map fun i => (i, classify_once script i))
            calls := 0 }).results := by
    unfold analyze_reviews
    simp only [Option.getD_some]
    rw [hskipeq]
  have hsplit2 := batch_loop_append script true (List.range 50) (List.range 50)
      ((List.range 100).map (50 + ·))
  have hskipstate := batch_loop_skip_all script true (List.range 50) (List.range 50)
      { results := (List.range 50).map fun i => (i, classify_once script i)
        ckpt := some ((List.range 50).map fun i => (i, classify_once script i))
        calls := 0 } hskipall
  have hproc := batch_loop_unskipped script true (List.range 50)
      ((List.range 100).map (50 + ·))
      { results := (List.range 50).map fun i => (i, classify_once script i)
        ckpt := some ((List.range 50).map fun i => (i, classify_once script i))
        calls := 0 } hnotin
  have hcalls : (batch_loop script true (List.range 50) (List.range 150)
        { results := (List.range 50).map fun i => (i, classify_once script i)
          ckpt := some ((List.range 50).map fun i => (i, classify_once script i))
          calls := 0 }).calls = 100 := by
    rw [h150split, hsplit2, hskipstate, hproc.2]
    simp
  have hres2 : (batch_loop script true (List.range 50) (List.range 150)
        { results := (List.range 50).map fun i => (i, classify_once script i)
          ckpt := some ((List.range 50).map fun i => (i, classify_once script i))
          calls := 0 }).results
      = ((List.range 50).map fun i => (i, classify_once script i))
          ++ ((List.range 100).map (50 + ·)).map fun i => (i, classify_once script i) := by
    rw [h150split, hsplit2, hskipstate, hproc.1]
  have hcov : ∀ i, i < 150 →
      ∃ e ∈ ((List.range 50).map fun i => (i, classify_once script i))
          ++ ((List.range 100).map (50 + ·)).map fun i => (i, classify_once script i),
        e.1 = i := by
    intro i hi
    by_cases h50 : i < 50
    · exact ⟨(i, classify_once script i),
        List.mem_append.mpr (Or.inl (List.mem_map.mpr ⟨i, List.mem_range.mpr h50, rfl⟩)),
        rfl⟩
    · refine ⟨(i, classify_once script i),
        List.mem_append.mpr (Or.inr (List.mem_map.mpr ⟨i, ?_, rfl⟩)), rfl⟩
      exact List.mem_map.mpr ⟨i - 50, List.mem_range.mpr (by omega), by omega⟩
  refine ⟨hckpt, ?_, ?_, ?_, ?_, ?_⟩
  · rw [hckpt]
    simp
  · rw [hckpt, hstate, hcalls]
  · rw [hckpt, hmerged, hres2]
    exact merge_results_all_some 150 _ hcov
  · rw [hckpt, hmerged]
    exact merge_results_length 150 _
  · rw [hckpt]
    unfold analyze_reviews
    simp only []

/-- Claim C6: in the per-item loop of `analyze_reviews`, a classification
call that raises or returns unparseable output (`script idx = none`) does
not abort the loop: the neutral default
{sentiment Neutral, emotion Indifferent, confidence 0.0, topics []} is
appended for that index and every remaining item is still processed, so a
fresh run over n rows always produces exactly n result entries and n
classification calls, with the neutral entry present for every failed
index (analyze_reviews.py lines 281-310). -/
theorem analyze_item_failure_default (script : Nat → Option ClassResult)
    (n idx : Nat) (hlt : idx < n) (hfail : script idx = none) :
    (analyze_reviews script n none).state.results.length = n
    ∧ (analyze_reviews script n none).state.calls = n
    ∧ (idx, neutralResult) ∈ (analyze_reviews script n none).state.results := by
  have hnil : ∀ i ∈ List.range n, ([] : List Nat).contains i = false := fun i _ => rfl
  have hres : (analyze_reviews script n none).state.results
      = (List.range n).map fun i => (i, classify_once script i) := by
    unfold analyze_reviews
    simp only [Option.getD_none, List.map_nil]
    rw [(batch_loop_unskipped script true [] (List.range n)
        { results := [], ckpt := none, calls := 0 } hnil).1]
    simp
  have hcalls : (analyze_reviews script n none).state.calls = n := by
    unfold analyze_reviews
    simp only [Option.getD_none, List.map_nil]
    rw [(batch_loop_unskipped script true [] (List.range n)
        { results := [], ckpt := none, calls := 0 } hnil).2]
    simp
  refine ⟨?_, hcalls, ?_⟩
  · rw [hres]
    simp
  · rw [hres]
    have : classify_once script idx = neutralResult := by
      unfold classify_once
      rw [hfail]
      rfl
    rw [← this]
    exact List.mem_map.mpr ⟨idx, List.mem_range.mpr hlt, rfl⟩

/-- Witness for C6 at n = 2 with a script that fails on every item. -/
theorem analyze_item_failure_default_witness :
    (analyze_reviews (fun _ => none) 2 none).state.results.length = 2
    ∧ (analyze_reviews (fun _ => none) 2 none).state.calls = 2
    ∧ (0, neutralResult) ∈ (analyze_reviews (fun _ => none) 2 none).state.results :=
  analyze_item_failure_default (fun _ => none) 2 0 (by decide) rfl

/-! ### Bounded fan-out discovery merge (discover_maps_locations.py)

`discover_maps_links` submits one search task per country up front, then
merges partition results in completion order: each arriving partition's
locations (already filtered and parsed by `_parse_maps_items`, and tagged
with their country by `search_country`) are deduplicated against
`seen_place_ids` — first seen wins — and appended to `all_locations`;
after merging a partition, if the merged count has reached
MAX_LOCATIONS_TARGET the collection loop `break`s, and the final list is
sorted descending by `reviews_count or 0`.  A partition is modelled as
the pair (country name, parsed locations); the list of partitions is the
completion (arrival) order of the futures. -/

structure MapLocation where
  place_id : String
  name : String
  address : String
  rating : Option ℚ
  reviews_count : Option Nat
  country : Option String
deriving DecidableEq

def MAX_LOCATIONS_TARGET : Nat := 30

/-- `search_country`'s provenance tagging: `loc["country"] = country_name`
(discover_maps_locations.py lines 311-315). -/
def tag_country (c : String) (locs : List MapLocation) : List MapLocation :=
  locs.map fun l => { l with country := some c }

/-- One fan-out partition: the country searched, and the locations its
create+poll+parse pipeline produced. -/
abbrev Partition := String × List MapLocation

/-- The dedup merge of one partition's locations into the accumulator
(discover_maps_locations.py lines 338-341): an item whose place_id was
already seen is dropped, first-seen attributes win. -/
def merge_locs (seen : List String) (acc : List MapLocation) :
    List MapLocation → List String × List MapLocation
  | [] => (seen, acc)
  | l :: rest =>
    if seen.contains l.place_id then merge_locs seen acc rest
    else merge_locs (seen ++ [l.place_id]) (acc ++ [l]) rest

/-- The result-collection loop over completed partitions
(discover_maps_locations.py lines 334-351): merge each arriving
partition, then `break` once the merged count reaches
MAX_LOCATIONS_TARGET — partitions arriving after the break are
discarded. -/
def merge_loop : List Partition → List String → List MapLocation → List MapLocation
  | [], _, acc => acc
  | p :: rest, seen, acc =>
    let m := merge_locs seen acc (tag_country p.1 p.2)
    if MAX_LOCATIONS_TARGET ≤ m.2.length then m.2
    else merge_loop rest m.1 m.2

/-- The same merge without the early break, used to state what the loop
computes: the plain dedup merge of every partition handed to it. -/
def merge_all : List Partition → List String → List MapLocation → List MapLocation
  | [], _, acc => acc
  | p :: rest, seen, acc =>
    let m := merge_locs seen acc (tag_country p.1 p.2)
    merge_all rest m.1 m.2

def total_locs (ps : List Partition) : Nat := (ps.map fun p => p.2.length).sum

/-- All tagged locations of all partitions, in arrival order. -/
def flat_tagged (ps : List Partition) : List MapLocation :=
  (ps.map fun p => tag_country p.1 p.2).flatten

/-- The sort key: `x.get("reviews_count") or 0`
(discover_maps_locations.py line 354). -/
def loc_key (l : MapLocation) : Nat := l.reviews_count.getD 0

/-- Stable descending insertion: an element is placed before the first
element whose key is not larger, so equal keys keep their original
relative order — the stability guarantee of Python's `list.sort`. -/
def insert_desc (x : MapLocation) : List MapLocation → List MapLocation
  | [] => [x]
  | y :: ys => if loc_key x < loc_key y then y :: insert_desc x ys else x :: y :: ys

/-- `all_locations.sort(key=lambda x: x.get("reviews_count") or 0,
reverse=True)`: a stable descending sort by `loc_key`. -/
def sort_desc (ls : List MapLocation) : List MapLocation := ls.foldr insert_desc []

/-- `discover_maps_links`: merge the partitions in completion order with
early termination, then sort the merged list descending by review
count. -/
def discover_maps_links (arrivals : List Partition) : List MapLocation :=
  sort_desc (merge_loop arrivals [] [])

/-! ### Sorting lemmas -/

theorem insert_desc_perm (x : MapLocation) :
    ∀ l : List MapLocation, (insert_desc x l).Perm (x :: l) := by
  intro l
  induction l with
  | nil => exact List.Perm.refl _
  | cons y ys ih =>
    by_cases h : loc_key x < loc_key y
    · simp only [insert_desc, h, if_true]
      exact (ih.cons y).trans (List.Perm.swap x y ys)
    · simp only [insert_desc, h, if_false]
      exact List.Perm.refl _

theorem sort_desc_perm (ls : List MapLocation) : (sort_desc ls).Perm ls := by
  induction ls with
  | nil => exact List.Perm.refl _
  | cons x xs ih =>
    exact (insert_desc_perm x (sort_desc xs)).trans (ih.cons x)

theorem insert_desc_sorted (x : MapLocation) (l : List MapLocation)
    (h : List.Pairwise (fun a b => loc_key b ≤ loc_key a) l) :
    List.Pairwise (fun a b => loc_key b ≤ loc_key a) (insert_desc x l) := by
  induction l with
  | nil => simp [insert_desc]
  | cons y ys ih =>
    rcases List.pairwise_cons.mp h with ⟨hy, hys⟩
    by_cases hk : loc_key x < loc_key y
    · simp only [insert_desc, hk, if_true]
      refine List.pairwise_cons.mpr ⟨?_, ih hys⟩
      intro b hb
      rcases List.mem_cons.mp ((insert_desc_perm x ys).mem_iff.mp hb) with rfl | hbys
      · omega
      · exact hy b hbys
    · simp only [insert_desc, hk, if_false]
      refine List.pairwise_cons.mpr ⟨?_, h⟩
      intro b hb
      rcases List.mem_cons.mp hb with rfl | hbys
      · omega
      · have := hy b hbys
        omega

theorem sort_desc_sorted (ls : List MapLocation) :
    List.Pairwise (fun a b => loc_key b ≤ loc_key a) (sort_desc ls) := by
  induction ls with
  | nil => simp [sort_desc]
  | cons x xs ih => exact insert_desc_sorted x (sort_desc xs) ih

/-! ### Merge-loop lemmas -/

theorem merge_loop_prefix :
    ∀ (ps : List Partition) (seen : List String) (acc : List MapLocation),
      ∃ n, n ≤ ps.length ∧ merge_loop ps seen acc = merge_all (ps.take n) seen acc
        ∧ (n < ps.length →
            MAX_LOCATIONS_TARGET ≤ (merge_all (ps.take n) seen acc).length) := by
  intro ps
  induction ps with
  | nil =>
    intro seen acc
    exact ⟨0, Nat.le_refl 0, rfl, by intro h; simp at h⟩
  | cons p rest ih =>
    intro seen acc
    by_cases hthr :
        MAX_LOCATIONS_TARGET ≤ (merge_locs seen acc (tag_country p.1 p.2)).2.length
    · refine ⟨1, by simp, ?_, ?_⟩
      · simp only [merge_loop, List.take_succ_cons, List.take_zero, merge_all]
        rw [if_pos hthr]
      · intro _
        simpa [merge_all] using hthr
    · obtain ⟨n, hn, heq, hth⟩ := ih (merge_locs seen acc (tag_country p.1 p.2)).1
        (merge_locs seen acc (tag_country p.1 p.2)).2
      refine ⟨n + 1, by simpa using Nat.succ_le_succ hn, ?_, ?_⟩
      · simp only [merge_loop, merge_all, List.take_succ_cons]
        rw [if_neg hthr]
        exact heq
      · intro hlt
        simp only [List.take_succ_cons, merge_all]
        exact hth (by simpa using Nat.lt_of_succ_lt_succ hlt)

theorem merge_locs_len_le :
    ∀ (locs : List MapLocation) (seen : List String) (acc : List MapLocation),
      (merge_locs seen acc locs).2.length ≤ acc.length + locs.length := by
  intro locs
  induction locs with
  | nil => intro seen acc; simp [merge_locs]
  | cons l rest ih =>
    intro seen acc
    by_cases hc : seen.contains l.place_id
    · simp only [merge_locs, hc, if_true, List.length_cons]
      have := ih seen acc
      omega
    · simp only [merge_locs, hc, Bool.false_eq_true, if_false, List.length_cons]
      have := ih (seen ++ [l.place_id]) (acc ++ [l])
      simp only [List.length_append, List.length_cons, List.length_nil] at this ⊢
      omega

theorem merge_loop_eq_all :
    ∀ (ps : List Partition) (seen : List String) (acc : List MapLocation),
      acc.length + total_locs ps < MAX_LOCATIONS_TARGET →
      merge_loop ps seen acc = merge_all ps seen acc := by
  intro ps
  induction ps with
  | nil => intro seen acc _; rfl
  | cons p rest ih =>
    intro seen acc h
    have htot : total_locs (p :: rest) = p.2.length + total_locs rest := by
      simp [total_locs]
    have hlen : (merge_locs seen acc (tag_country p.1 p.2)).2.length
        ≤ acc.length + p.2.length := by
      have := merge_locs_len_le (tag_country p.1 p.2) seen acc
      simpa [tag_country] using this
    have hthr : ¬ MAX_LOCATIONS_TARGET ≤ (merge_locs seen acc (tag_country p.1 p.2)).2.length := by
      rw [htot] at h
      have : 0 ≤ total_locs rest := Nat.zero_le _
      omega
    simp only [merge_loop, merge_all]
    rw [if_neg hthr]
    refine ih _ _ ?_
    rw [htot] at h
    omega

theorem merge_locs_append (xs ys : List MapLocation) :
    ∀ (seen : List String) (acc : List MapLocation),
      merge_locs seen acc (xs ++ ys)
        = merge_locs (merge_locs seen acc xs).1 (merge_locs seen acc xs).2 ys := by
  induction xs with
  | nil => intro seen acc; rfl
  | cons l rest ih =>
    intro seen acc
    by_cases hc : seen.contains l.place_id
    · simp only [List.cons_append, merge_locs, hc, if_true]
      exact ih _ _
    · simp only [List.cons_append, merge_locs, hc, Bool.false_eq_true, if_false]
      exact ih _ _

theorem merge_all_eq_flat :
    ∀ (ps : List Partition) (seen : List String) (acc : List MapLocation),
      merge_all ps seen acc = (merge_locs seen acc (flat_tagged ps)).2 := by
  intro ps
  induction ps with
  | nil => intro seen acc; simp [merge_all, flat_tagged, merge_locs]
  | cons p rest ih =>
    intro seen acc
    have hf : flat_tagged (p :: rest) = tag_country p.1 p.2 ++ flat_tagged rest := by
      simp [flat_tagged]
    rw [hf, merge_locs_append]
    simp only [merge_all]
    exact ih _ _

theorem contains_true_of_mem {seen : List String} {pid : String} (h : pid ∈ seen) :
    seen.contains pid = true := List.elem_iff.mpr h

theorem mem_of_contains_true {seen : List String} {pid : String}
    (h : seen.contains pid = true) : pid ∈ seen := List.elem_iff.mp h

theorem not_mem_of_contains_false {seen : List String} {pid : String}
    (h : seen.contains pid = false) : ¬ pid ∈ seen := by
  intro hm
  rw [contains_true_of_mem hm] at h
  exact Bool.noConfusion h

theorem contains_append_left {seen : List String} {x pid : String}
    (h : seen.contains pid = true) : (seen ++ [x]).contains pid = true :=
  contains_true_of_mem (List.mem_append.mpr (Or.inl (mem_of_contains_true h)))

theorem contains_append_ne {seen : List String} {x pid : String}
    (h : seen.contains pid = false) (hne : x ≠ pid) :
    (seen ++ [x]).contains pid = false := by
  rw [Bool.eq_false_iff]
  intro hc
  rcases List.mem_append.mp (mem_of_contains_true hc) with hmem | hmem
  · exact not_mem_of_contains_false h hmem
  · simp at hmem
    exact hne hmem.symm

theorem merge_locs_filter_in :
    ∀ (xs : List MapLocation) (seen : List String) (acc : List MapLocation)
      (pid : String), seen.contains pid = true →
      (merge_locs seen acc xs).2.filter (fun l => l.place_id == pid)
        = acc.filter (fun l => l.place_id == pid) := by
  intro xs
  induction xs with
  | nil => intro seen acc pid _; rfl
  | cons l rest ih =>
    intro seen acc pid hseen
    by_cases hc : seen.contains l.place_id
    · simp only [merge_locs, hc, if_true]
      exact ih _ _ _ hseen
    · simp only [merge_locs, hc, Bool.false_eq_true, if_false]
      have hne : (l.place_id == pid) = false := by
        rw [beq_eq_false_iff_ne]
        intro heq
        exact hc (by rw [heq]; exact hseen)
      rw [ih _ _ _ (contains_append_left hseen), List.filter_append]
      simp [hne]

theorem merge_locs_filter_out :
    ∀ (xs : List MapLocation) (seen : List String) (acc : List MapLocation)
      (pid : String), seen.contains pid = false →
      (merge_locs seen acc xs).2.filter (fun l => l.place_id == pid)
        = acc.filter (fun l => l.place_id == pid)
            ++ (xs.find? (fun l => l.place_id == pid)).toList := by
  intro xs
  induction xs with
  | nil => intro seen acc pid _; simp [merge_locs]
  | cons l rest ih =>
    intro seen acc pid hseen
    by_cases hlp : l.place_id = pid
    · have hc : seen.contains l.place_id = false := by rw [hlp]; exact hseen
      have hbeq : (l.place_id == pid) = true := beq_iff_eq.mpr hlp
      simp only [merge_locs, hc, Bool.false_eq_true, if_false]
      rw [merge_locs_filter_in rest _ _ pid
          (by
            rw [hlp]
            exact contains_true_of_mem
              (List.mem_append.mpr (Or.inr (List.mem_singleton.mpr rfl))))]
      rw [List.filter_append,
        show List.find? (fun x => x.place_id == pid) (l :: rest) = some l from
          List.find?_cons_of_pos _ hbeq]
      simp [hbeq]
    · have hbeq : (l.place_id == pid) = false := beq_eq_false_iff_ne.mpr hlp
      by_cases hc : seen.contains l.place_id
      · simp only [merge_locs, hc, if_true]
        rw [ih _ _ _ hseen,
          show List.find? (fun x => x.place_id == pid) (l :: rest)
              = List.find? (fun x => x.place_id == pid) rest from
            List.find?_cons_of_neg _ (by simp [hbeq])]
      · simp only [merge_locs, hc, Bool.false_eq_true, if_false]
        rw [ih _ _ _ (contains_append_ne hseen hlp), List.filter_append,
          show List.find? (fun x => x.place_id == pid) (l :: rest)
              = List.find? (fun x => x.place_id == pid) rest from
            List.find?_cons_of_neg _ (by simp [hbeq])]
        simp [hbeq]

theorem merge_locs_mem :
    ∀ (xs : List MapLocation) (seen : List String) (acc : List MapLocation)
      (l : MapLocation), l ∈ (merge_locs seen acc xs).2 → l ∈ acc ∨ l ∈ xs := by
  intro xs
  induction xs with
  | nil => intro seen acc l hl; exact Or.inl hl
  | cons x rest ih =>
    intro seen acc l hl
    by_cases hc : seen.contains x.place_id
    · simp only [merge_locs, hc, if_true] at hl
      rcases ih _ _ _ hl with h | h
      · exact Or.inl h
      · exact Or.inr (List.mem_cons_of_mem x h)
    · simp only [merge_locs, hc, Bool.false_eq_true, if_false] at hl
      rcases ih _ _ _ hl with h | h
      · rcases List.mem_append.mp h with h2 | h2
        · exact Or.inl h2
        · simp at h2
          exact Or.inr (h2 ▸ List.mem_cons_self x rest)
      · exact Or.inr (List.mem_cons_of_mem x h)

theorem flat_tagged_country (ps : List Partition) (l : MapLocation)
    (h : l ∈ flat_tagged ps) : l.country.isSome = true := by
  unfold flat_tagged at h
  obtain ⟨lst, hlst, hl⟩ := List.mem_flatten.mp h
  obtain ⟨p, _, rfl⟩ := List.mem_map.mp hlst
  obtain ⟨x, _, rfl⟩ := List.mem_map.mp hl
  rfl

theorem discover_country_tag (ps : List Partition) (l : MapLocation)
    (h : l ∈ discover_maps_links ps) : l.country.isSome = true := by
  have hmem : l ∈ merge_loop ps [] [] := (sort_desc_perm _).mem_iff.mp h
  obtain ⟨n, _, heq, _⟩ := merge_loop_prefix ps [] []
  rw [heq, merge_all_eq_flat] at hmem
  rcases merge_locs_mem _ _ _ _ hmem with h2 | h2
  · exact absurd h2 (List.not_mem_nil l)
  · exact flat_tagged_country _ _ h2

/-! ### Concrete fan-out data for counterexamples and witnesses -/

def mk_loc (pid : String) : MapLocation :=
  { place_id := pid, name := pid, address := "", rating := none,
    reviews_count := none, country := none }

/-- Thirty distinct locations: enough to trip MAX_LOCATIONS_TARGET. -/
def many_locs : List MapLocation := (List.range 30).map fun i => mk_loc (Nat.repr i)

def locX : MapLocation := mk_loc ("X")

/-- A second location with the same place_id "X" but different
attributes, to exercise first-seen-wins. -/
def locX2 : MapLocation :=
  { place_id := "X", name := "first seen", address := "", rating := none,
    reviews_count := some 3, country := none }

def locA : MapLocation :=
  { place_id := "A", name := "A", address := "", rating := none,
    reviews_count := some 5, country := none }

def locB : MapLocation :=
  { place_id := "B", name := "B", address := "", rating := none,
    reviews_count := some 5, country := none }

/-- A two-partition arrival in which both partitions return place_id "X". -/
def psW : List Partition :=
  [("United Arab Emirates", [locX2]), ("Saudi Arabia", [locX])]

/-! ### Claim C4: early termination -/

/-- Counterexample to claim C4: with a first-arriving partition of 30
locations and a second partition carrying place_id "X", the merged count
reaches MAX_LOCATIONS_TARGET after the first partition and the collection
loop breaks, so the second partition's results are discarded — "X" is
absent from the final output, although the claim says an in-flight
partition's results are still merged and never discarded. -/
theorem discover_early_stop_counterexample :
    ((discover_maps_links
          [("United Arab Emirates", many_locs), ("Saudi Arabia", [locX])]).map
        fun l => l.place_id).contains "X" = false
    ∧ (discover_maps_links
          [("United Arab Emirates", many_locs), ("Saudi Arabia", [locX])]).length = 30 := by
  decide

/-- Claim C4 (amended): all partition sessions are submitted up front, so
no session is submitted after the threshold trips; but once the merged,
deduplicated count reaches MAX_LOCATIONS_TARGET the result-collection
loop exits, and the results of partitions that complete later are
discarded rather than merged.  The merged output is therefore the plain
dedup merge (`merge_all`) of the prefix of the arrival order up to and
including the partition that tripped the threshold — and of a proper
prefix only when the threshold was in fact reached.  The final count may
still exceed the threshold, because the tripping partition is merged in
full (discover_maps_locations.py lines 327-351). -/
theorem discover_early_termination_amended :
    (∀ ps : List Partition, ∃ n, n ≤ ps.length
        ∧ merge_loop ps [] [] = merge_all (ps.take n) [] []
        ∧ (n < ps.length →
            MAX_LOCATIONS_TARGET ≤ (merge_all (ps.take n) [] []).length))
    ∧ (∃ ps : List Partition,
        MAX_LOCATIONS_TARGET < (merge_loop ps [] []).length) := by
  constructor
  · intro ps
    exact merge_loop_prefix ps [] []
  · exact ⟨[("Kuwait", many_locs ++ [locX])], by decide⟩

/-! ### Claim C5: partition dedup -/

/-- Counterexample to claim C5: partitions two and three both return a
location with place_id "X", yet zero (not exactly one) items with that
place_id appear in the merged output, because the 30-location first
partition trips the early-termination threshold and the later partitions
are discarded unmerged. -/
theorem discover_dedup_counterexample :
    2 ≤ (([("United Arab Emirates", many_locs), ("Saudi Arabia", [locX]),
            ("Egypt", [locX])] : List Partition).filter
          fun p => p.2.any fun l => l.place_id == "X").length
    ∧ ((discover_maps_links
          [("United Arab Emirates", many_locs), ("Saudi Arabia", [locX]),
            ("Egypt", [locX])]).filter
          fun l => l.place_id == "X").length = 0 := by
  decide

/-- Claim C5 (amended): whenever the total location count across the
partitions stays below MAX_LOCATIONS_TARGET — so early termination never
discards a partition — and at least two partitions return a location with
the same place_id, exactly one item with that place_id appears in the
merged, sorted output, namely the first-seen occurrence (in arrival
order, with its attributes and its partition's country tag); and every
surviving merged item carries its partition's country tag
(discover_maps_locations.py lines 311-315 and 337-341). -/
theorem discover_dedup_first_seen (ps : List Partition) (pid : String)
    (htotal : total_locs ps < MAX_LOCATIONS_TARGET)
    (hdup : 2 ≤ (ps.filter fun p => p.2.any fun l => l.place_id == pid).length) :
    (∃ loc, (flat_tagged ps).find? (fun l => l.place_id == pid) = some loc
      ∧ (discover_maps_links ps).filter (fun l => l.place_id == pid) = [loc]
      ∧ loc.country.isSome = true)
    ∧ ∀ l ∈ discover_maps_links ps, l.country.isSome = true := by
  have hstop : merge_loop ps [] [] = merge_all ps [] [] :=
    merge_loop_eq_all ps [] [] (by simpa using htotal)
  have hflat := merge_all_eq_flat ps [] ([] : List MapLocation)
  have hpos : 0 < (ps.filter fun p => p.2.any fun l => l.place_id == pid).length := by
    omega
  obtain ⟨p, hpmem⟩ := List.exists_mem_of_length_pos hpos
  have hpfil := List.mem_filter.mp hpmem
  obtain ⟨x, hx, hxpid⟩ := List.any_eq_true.mp hpfil.2
  have hxtag : ({ x with country := some p.1 } : MapLocation) ∈ flat_tagged ps := by
    unfold flat_tagged
    refine List.mem_flatten.mpr
      ⟨tag_country p.1 p.2, List.mem_map.mpr ⟨p, hpfil.1, rfl⟩, ?_⟩
    exact List.mem_map.mpr ⟨x, hx, rfl⟩
  have hfindsome : ((flat_tagged ps).find? fun l => l.place_id == pid).isSome = true := by
    rw [List.find?_isSome]
    exact ⟨_, hxtag, hxpid⟩
  obtain ⟨loc, hfind⟩ := Option.isSome_iff_exists.mp hfindsome
  have hfilter : (merge_loop ps [] []).filter (fun l => l.place_id == pid) = [loc] := by
    rw [hstop, hflat, merge_locs_filter_out (flat_tagged ps) [] [] pid rfl]
    simp [hfind]
  constructor
  · refine ⟨loc, hfind, ?_, ?_⟩
    · have hperm := (sort_desc_perm (merge_loop ps [] [])).filter
        (fun l => l.place_id == pid)
      rw [hfilter] at hperm
      exact List.perm_singleton.mp hperm
    · exact flat_tagged_country ps loc (List.mem_of_find?_eq_some hfind)
  · intro l hl
    exact discover_country_tag ps l hl

/-- Witness for the amended C5 at a concrete two-partition arrival in
which both partitions return place_id "X". -/
theorem discover_dedup_first_seen_witness :
    (∃ loc, (flat_tagged psW).find? (fun l => l.place_id == "X") = some loc
      ∧ (discover_maps_links psW).filter (fun l => l.place_id == "X") = [loc]
      ∧ loc.country.isSome = true)
    ∧ ∀ l ∈ discover_maps_links psW, l.country.isSome = true :=
  discover_dedup_first_seen psW "X" (by decide) (by decide)

/-! ### Claim C8: output ordering -/

/-- Counterexample to the arrival-order-independence part of claim C8:
two singleton partitions whose locations have equal reviews_count (5)
produce different final lists when their completion order is swapped —
the sort is stable, so ties keep merge order, which is arrival order. -/
theorem discover_order_counterexample :
    discover_maps_links [("United Arab Emirates", [locA]), ("Saudi Arabia", [locB])]
      ≠ discover_maps_links
          [("Saudi Arabia", [locB]), ("United Arab Emirates", [locA])] := by
  decide

/-- Claim C8 (amended): the final merged list is sorted in non-increasing
order of each item's reviews_count, with a missing reviews_count treated
as zero (`loc_key`), and is a permutation of the merge loop's output; but
the sort is stable, so among items with equal counts the order follows
the merge (arrival) order, and the result can therefore depend on the
partitions' completion order (discover_maps_locations.py lines 353-354). -/
theorem discover_sorted_by_reviews (ps : List Partition) :
    List.Pairwise (fun a b => loc_key b ≤ loc_key a) (discover_maps_links ps)
    ∧ (discover_maps_links ps).Perm (merge_loop ps [] []) :=
  ⟨sort_desc_sorted _, sort_desc_perm _⟩
